import Mathlib

/-!
Shallow embedding of `uls_exporter` (src/main.go): a Prometheus exporter that
fetches ULS lease records from an upstream HTTP endpoint and republishes two
gauges, `uls_up` and `uls_leases`.

Pure Go functions become Lean functions.  The environment of a single
`GetLeases` call (outcome of URL resolution, of `http.Get`, of the body read,
and the raw body bytes themselves) is reified as a `World` value that is
passed in explicitly; `Collect`'s sends on the metric channel become the
returned list of `Metric` samples, in send order.
-/

/-- A Go `error` value, identified by its message string. -/
structure GoError where
  msg : String
deriving DecidableEq

deriving instance DecidableEq for Except

/-- JSON values, as denoted by a syntactically well-formed document.  Numbers
are abstracted as integers (the only numeric field the program decodes,
`floatingLeaseId`, is a Go `int`). -/
inductive Json where
  | null
  | bool (b : Bool)
  | num (n : Int)
  | str (s : String)
  | arr (elems : List Json)
  | obj (fields : List (String × Json))

/-- A byte string handed to `json.Unmarshal`: either it is not syntactically
valid JSON (the scanner reports `e`), or it denotes the JSON value `j`. -/
inductive JsonBytes where
  | notJson (e : GoError)
  | val (j : Json)

/-- `type TimeUTC time.Time` (src/main.go line 19), represented by the
components `time.Parse` extracts from a timestamp in layout
`TimeUTCFormat`. -/
structure TimeUTC where
  year : Nat
  month : Nat
  day : Nat
  hour : Nat
  minute : Nat
  second : Nat
  nanosecond : Nat
  offsetSeconds : Int
deriving DecidableEq

/-- The zero Go `time.Time`: January 1, year 1, 00:00:00 UTC. -/
def TimeUTC.goZero : TimeUTC := ⟨1, 1, 1, 0, 0, 0, 0, 0⟩

/-- `const TimeUTCFormat = "2006-01-02T15:04:05.999999Z07:00"` (line 21). -/
def TimeUTCFormat : String := "2006-01-02T15:04:05.999999Z07:00"

def digitVal (c : Char) : Option Nat :=
  if '0' ≤ c ∧ c ≤ '9' then some (c.toNat - 48) else none

/-- Read exactly `n` decimal digits (the four-digit year chunk `2006`, and
Go's `getnum` with `fixed = true` for the two-digit chunks), returning their
value and the rest of the input. -/
def readDigits : Nat → Nat → List Char → Option (Nat × List Char)
  | 0, acc, cs => some (acc, cs)
  | _ + 1, _, [] => none
  | n + 1, acc, c :: cs =>
    match digitVal c with
    | some d => readDigits n (acc * 10 + d) cs
    | none => none

/-- Go's `getnum` with `fixed = false` (the hour chunk `15`): one digit, or
two when the second character is also a digit. -/
def readNum2 : List Char → Option (Nat × List Char)
  | [] => none
  | [c] =>
    match digitVal c with
    | some d => some (d, [])
    | none => none
  | c1 :: c2 :: cs =>
    match digitVal c1, digitVal c2 with
    | some d1, some d2 => some (d1 * 10 + d2, cs)
    | some d1, none => some (d1, c2 :: cs)
    | none, _ => none

def expectChar (c : Char) : List Char → Option (List Char)
  | [] => none
  | c' :: cs => if c' = c then some cs else none

/-- Consume a maximal run of decimal digits. -/
def takeDigits : List Char → List Nat × List Char
  | [] => ([], [])
  | c :: cs =>
    match digitVal c with
    | some d =>
      match takeDigits cs with
      | (ds, rest) => (d :: ds, rest)
    | none => ([], c :: cs)

/-- Optional fractional seconds for the layout chunk `.999999`: either absent,
or a separator followed by one to nine digits scaled to nanoseconds (ten or
more digits overflow the nanosecond range and make `time.Parse` fail).
`time.Parse` accepts both `.` and `,` as the separator (`commaOrPeriod` in its
`stdFracSecond9` branch). -/
def parseFrac (cs : List Char) : Option (Nat × List Char) :=
  match cs with
  | c0 :: c :: rest =>
    if c0 = '.' ∨ c0 = ',' then
      match digitVal c with
      | some _ =>
        match takeDigits (c :: rest) with
        | (ds, rest') =>
          if ds.length ≤ 9 then
            some (ds.foldl (fun a d => a * 10 + d) 0 * 10 ^ (9 - ds.length), rest')
          else none
      | none => some (0, c0 :: c :: rest)
    else some (0, c0 :: c :: rest)
  | _ => some (0, cs)

/-- Time-zone suffix for the layout chunk `Z07:00`: `Z` for UTC, otherwise a
sign followed by `hh:mm`. -/
def parseZone : List Char → Option (Int × List Char)
  | 'Z' :: cs => some (0, cs)
  | c :: h1 :: h2 :: ':' :: m1 :: m2 :: cs =>
    if c = '+' ∨ c = '-' then
      match digitVal h1, digitVal h2, digitVal m1, digitVal m2 with
      | some a, some b, some x, some y =>
        some (if c = '-' then -(((a * 10 + b) * 60 + (x * 10 + y)) * 60 : Int)
              else (((a * 10 + b) * 60 + (x * 10 + y)) * 60 : Int), cs)
      | _, _, _, _ => none
    else none
  | _ => none

def isLeap (y : Nat) : Bool := y % 4 == 0 && (y % 100 != 0 || y % 400 == 0)

def daysIn (m : Nat) (y : Nat) : Nat :=
  if m = 2 then (if isLeap y then 29 else 28)
  else if m = 4 ∨ m = 6 ∨ m = 9 ∨ m = 11 then 30
  else 31

/-- Model of `time.Parse(TimeUTCFormat, s)` on the character list of `s`, for
the one layout this program uses, including `time.Parse`'s range checks on
month, day, hour, minute and second and its trailing-garbage check. -/
def timeParseULSCore (cs0 : List Char) : Option TimeUTC := do
  let (year, cs) ← readDigits 4 0 cs0
  let cs ← expectChar '-' cs
  let (month, cs) ← readDigits 2 0 cs
  let cs ← expectChar '-' cs
  let (day, cs) ← readDigits 2 0 cs
  let cs ← expectChar 'T' cs
  let (hour, cs) ← readNum2 cs
  let cs ← expectChar ':' cs
  let (minute, cs) ← readDigits 2 0 cs
  let cs ← expectChar ':' cs
  let (second, cs) ← readDigits 2 0 cs
  let (nanos, cs) ← parseFrac cs
  let (offset, cs) ← parseZone cs
  if cs = [] ∧ 1 ≤ month ∧ month ≤ 12 ∧ hour ≤ 23 ∧ minute ≤ 59 ∧ second ≤ 59 ∧
      1 ≤ day ∧ day ≤ daysIn month year then
    some ⟨year, month, day, hour, minute, second, nanos, offset⟩
  else
    none

/-- `time.Parse(TimeUTCFormat, s)` (the cast `TimeUTC(parsed)` is the
identity in this representation). -/
def timeParseULS (s : String) : Except GoError TimeUTC :=
  match timeParseULSCore s.data with
  | some t => Except.ok t
  | none =>
    Except.error ⟨"parsing time " ++ s ++ " as " ++ TimeUTCFormat ++ ": cannot parse"⟩

def timeParseOk (s : String) : Bool :=
  match timeParseULS s with
  | Except.ok _ => true
  | Except.error _ => false

/-- `json.Unmarshal(b, &s)` for a `string` target whose current value is
`old`: a JSON string sets it, JSON `null` leaves it unchanged, anything else
is a type error. -/
def jsonUnmarshalStr (old : String) (b : Json) : Except GoError String :=
  match b with
  | Json.str s => Except.ok s
  | Json.null => Except.ok old
  | _ => Except.error ⟨"json: cannot unmarshal value into Go value of type string"⟩

/-- The body of `func (t TimeUTC) UnmarshalJSON(b []byte) error` (src/main.go
lines 23-35), run on the local copy of the receiver: returns the error result
together with the final value of that local copy (the statement
`t = TimeUTC(parsed)` writes the copy; the local `var s string` starts
empty). -/
def TimeUTC.unmarshalJSONBody (t : TimeUTC) (b : Json) : Option GoError × TimeUTC :=
  match jsonUnmarshalStr "" b with
  | Except.error e => (some e, t)
  | Except.ok s =>
    match timeParseULS s with
    | Except.error e => (some e, t)
    | Except.ok parsed => (none, parsed)

/-- The caller-observable effect of `TimeUTC.UnmarshalJSON`: the method has a
value receiver, so the assignment inside the body mutates a copy and the
caller's `TimeUTC` keeps its previous value whatever the outcome.  The pair is
(returned error, value of the caller's receiver slot afterwards). -/
def TimeUTC.UnmarshalJSON (t : TimeUTC) (b : Json) : Option GoError × TimeUTC :=
  ((TimeUTC.unmarshalJSONBody t b).1, t)

/-- `uuid.UUID` (github.com/google/uuid): 16 bytes. -/
def UUID : Type := List Nat

instance : DecidableEq UUID := inferInstanceAs (DecidableEq (List Nat))

def UUID.goZero : UUID := List.replicate 16 0

def hexVal (c : Char) : Option Nat :=
  if '0' ≤ c ∧ c ≤ '9' then some (c.toNat - 48)
  else if 'a' ≤ c ∧ c ≤ 'f' then some (c.toNat - 87)
  else if 'A' ≤ c ∧ c ≤ 'F' then some (c.toNat - 55)
  else none

/-- `xtob`: decode a pair of hex digits into one byte. -/
def xtob (c1 c2 : Char) : Option Nat := do
  let h ← hexVal c1
  let l ← hexVal c2
  some (h * 16 + l)

def hexPairs : List Char → Option (List Nat)
  | [] => some []
  | [_] => none
  | c1 :: c2 :: rest => do
    let b ← xtob c1 c2
    let bs ← hexPairs rest
    some (b :: bs)

/-- The 36-character canonical UUID form
`xxxxxxxx-xxxx-xxxx-xxxx-xxxxxxxxxxxx`. -/
def uuidCanonical (cs : List Char) : Option UUID :=
  if cs.length = 36 ∧ cs[8]? = some '-' ∧ cs[13]? = some '-' ∧
      cs[18]? = some '-' ∧ cs[23]? = some '-' then
    hexPairs (cs.take 8 ++ (cs.drop 9).take 4 ++ (cs.drop 14).take 4 ++
      (cs.drop 19).take 4 ++ cs.drop 24)
  else none

/-- `uuid.Parse`: canonical, `urn:uuid:`-prefixed, wrapped, and 32-hex-digit
forms (error messages abbreviated to a single string).  For a 38-character
input the library slices off the first character without validating either
wrapper character (the `36 + 2` case does `s = s[1:]` and never inspects
`s[0]` or the final byte), so any wrapper pair is accepted. -/
def uuidParse (s : String) : Except GoError UUID :=
  let cs := s.data
  let parsed :=
    if cs.length = 36 then uuidCanonical cs
    else if cs.length = 45 ∧ (cs.take 9).map Char.toLower = "urn:uuid:".data then
      uuidCanonical (cs.drop 9)
    else if cs.length = 38 then uuidCanonical ((cs.drop 1).take 36)
    else if cs.length = 32 then hexPairs cs
    else none
  match parsed with
  | some u => Except.ok u
  | none => Except.error ⟨"invalid UUID format"⟩

/-- `type ULSClientEntitlementContext struct` (src/main.go lines 54-61). -/
structure ULSClientEntitlementContext where
  EnvironmentDomain : String
  EnvironmentHostname : String
  EnvironmentUser : String
  LegacyMachineBinding1 : String
  LegacyMachineBinding2 : String
  LegacyMachineBinding5 : String
deriving DecidableEq

def ULSClientEntitlementContext.goZero : ULSClientEntitlementContext :=
  ⟨"", "", "", "", "", ""⟩

/-- `type ULSLease struct` (src/main.go lines 63-71).  A `nil`
`entitlementGroupIds` slice is `none`. -/
structure ULSLease where
  FloatingLeaseID : Int
  Token : UUID
  CreatedTimeUTC : TimeUTC
  LastRenewalTimeUTC : TimeUTC
  IsRevoked : Bool
  ClientEntitlementContext : ULSClientEntitlementContext
  EntitlementGroupIDs : Option (List String)
deriving DecidableEq

/-- The zero `ULSLease` a fresh decode starts from. -/
def ULSLease.goZero : ULSLease :=
  ⟨0, UUID.goZero, TimeUTC.goZero, TimeUTC.goZero, false,
    ULSClientEntitlementContext.goZero, none⟩

/-- `json.Unmarshal` of a JSON value into a Go `int` field: `int` is 64 bits
on this build, and a number outside the int64 range is an unmarshal type
error. -/
def jsonUnmarshalInt (old : Int) (b : Json) : Except GoError Int :=
  match b with
  | Json.num n =>
    if n < -(2 ^ 63) ∨ 2 ^ 63 - 1 < n then
      Except.error ⟨"json: cannot unmarshal number into Go value of type int"⟩
    else Except.ok n
  | Json.null => Except.ok old
  | _ => Except.error ⟨"json: cannot unmarshal value into Go value of type int"⟩

def jsonUnmarshalBool (old : Bool) (b : Json) : Except GoError Bool :=
  match b with
  | Json.bool v => Except.ok v
  | Json.null => Except.ok old
  | _ => Except.error ⟨"json: cannot unmarshal value into Go value of type bool"⟩

/-- `uuid.UUID` implements `encoding.TextUnmarshaler`, so `encoding/json`
requires a JSON string and feeds it to `uuid.Parse`; `null` is a no-op. -/
def jsonUnmarshalUUID (old : UUID) (b : Json) : Except GoError UUID :=
  match b with
  | Json.str s => uuidParse s
  | Json.null => Except.ok old
  | _ => Except.error ⟨"json: cannot unmarshal value into Go value of type uuid.UUID"⟩

def jsonUnmarshalStrList : List Json → Except GoError (List String)
  | [] => Except.ok []
  | x :: xs =>
    match jsonUnmarshalStr "" x with
    | Except.error e => Except.error e
    | Except.ok s =>
      match jsonUnmarshalStrList xs with
      | Except.error e => Except.error e
      | Except.ok rest => Except.ok (s :: rest)

/-- `json.Unmarshal` into a `[]string` field: `null` sets the slice to `nil`,
an array decodes elementwise, anything else is a type error. -/
def jsonUnmarshalStringSlice (b : Json) : Except GoError (Option (List String)) :=
  match b with
  | Json.null => Except.ok none
  | Json.arr xs =>
    match jsonUnmarshalStrList xs with
    | Except.error e => Except.error e
    | Except.ok l => Except.ok (some l)
  | _ => Except.error ⟨"json: cannot unmarshal value into Go value of type []string"⟩

/-- Simple case folding as `encoding/json` key comparison applies it against
the ASCII field tags of this program (`bytes.EqualFold` semantics): ASCII
letters fold to lower case, and the two code points whose Unicode simple fold
is an ASCII letter — Kelvin sign (U+212A) and long s (U+017F) — fold to `k`
and `s`.  Every other character only matches itself against an ASCII tag. -/
def foldChar (c : Char) : Char :=
  if c = Char.ofNat 8490 then 'k'
  else if c = Char.ofNat 383 then 's'
  else c.toLower

/-- `encoding/json` field matching: an exact tag match, or the
case-insensitive fallback.  The tags of this program are pairwise
non-fold-equal, so the exact-match preference never changes the outcome and
matching reduces to fold equality. -/
def jsonKeyMatch (key tag : String) : Bool :=
  key.data.map foldChar == tag.data.map foldChar

/-- Decode one JSON object member into the matching
`ULSClientEntitlementContext` field, by its `json:"..."` tag with
`encoding/json`'s case-insensitive fallback; unknown keys are ignored. -/
def contextField (c : ULSClientEntitlementContext) (key : String) (v : Json) :
    Except GoError ULSClientEntitlementContext :=
  if jsonKeyMatch key "EnvironmentDomain" then
    match jsonUnmarshalStr c.EnvironmentDomain v with
    | Except.ok s => Except.ok { c with EnvironmentDomain := s }
    | Except.error e => Except.error e
  else if jsonKeyMatch key "EnvironmentHostname" then
    match jsonUnmarshalStr c.EnvironmentHostname v with
    | Except.ok s => Except.ok { c with EnvironmentHostname := s }
    | Except.error e => Except.error e
  else if jsonKeyMatch key "EnvironmentUser" then
    match jsonUnmarshalStr c.EnvironmentUser v with
    | Except.ok s => Except.ok { c with EnvironmentUser := s }
    | Except.error e => Except.error e
  else if jsonKeyMatch key "Legacy.MachineBinding1" then
    match jsonUnmarshalStr c.LegacyMachineBinding1 v with
    | Except.ok s => Except.ok { c with LegacyMachineBinding1 := s }
    | Except.error e => Except.error e
  else if jsonKeyMatch key "Legacy.MachineBinding2" then
    match jsonUnmarshalStr c.LegacyMachineBinding2 v with
    | Except.ok s => Except.ok { c with LegacyMachineBinding2 := s }
    | Except.error e => Except.error e
  else if jsonKeyMatch key "Legacy.MachineBinding5" then
    match jsonUnmarshalStr c.LegacyMachineBinding5 v with
    | Except.ok s => Except.ok { c with LegacyMachineBinding5 := s }
    | Except.error e => Except.error e
  else Except.ok c

def contextFields : ULSClientEntitlementContext → List (String × Json) →
    Except GoError ULSClientEntitlementContext
  | c, [] => Except.ok c
  | c, (k, v) :: rest =>
    match contextField c k v with
    | Except.ok c' => contextFields c' rest
    | Except.error e => Except.error e

def jsonUnmarshalContext (old : ULSClientEntitlementContext) (b : Json) :
    Except GoError ULSClientEntitlementContext :=
  match b with
  | Json.null => Except.ok old
  | Json.obj fields => contextFields old fields
  | _ => Except.error ⟨"json: cannot unmarshal value into Go value of type main.ULSClientEntitlementContext"⟩

/-- Decode one JSON object member into the matching `ULSLease` field, by its
`json:"..."` tag with `encoding/json`'s case-insensitive fallback; unknown
keys are ignored, later duplicates overwrite. -/
def decodeLeaseField (l : ULSLease) (key : String) (v : Json) : Except GoError ULSLease :=
  if jsonKeyMatch key "floatingLeaseId" then
    match jsonUnmarshalInt l.FloatingLeaseID v with
    | Except.ok n => Except.ok { l with FloatingLeaseID := n }
    | Except.error e => Except.error e
  else if jsonKeyMatch key "token" then
    match jsonUnmarshalUUID l.Token v with
    | Except.ok u => Except.ok { l with Token := u }
    | Except.error e => Except.error e
  else if jsonKeyMatch key "createdTimeUtc" then
    match TimeUTC.UnmarshalJSON l.CreatedTimeUTC v with
    | (some e, _) => Except.error e
    | (none, t') => Except.ok { l with CreatedTimeUTC := t' }
  else if jsonKeyMatch key "lastRenewalTimeUtc" then
    match TimeUTC.UnmarshalJSON l.LastRenewalTimeUTC v with
    | (some e, _) => Except.error e
    | (none, t') => Except.ok { l with LastRenewalTimeUTC := t' }
  else if jsonKeyMatch key "isRevoked" then
    match jsonUnmarshalBool l.IsRevoked v with
    | Except.ok r => Except.ok { l with IsRevoked := r }
    | Except.error e => Except.error e
  else if jsonKeyMatch key "clientEntitlementContext" then
    match jsonUnmarshalContext l.ClientEntitlementContext v with
    | Except.ok c => Except.ok { l with ClientEntitlementContext := c }
    | Except.error e => Except.error e
  else if jsonKeyMatch key "entitlementGroupIds" then
    match jsonUnmarshalStringSlice v with
    | Except.ok g => Except.ok { l with EntitlementGroupIDs := g }
    | Except.error e => Except.error e
  else Except.ok l

def decodeLeaseFields : ULSLease → List (String × Json) → Except GoError ULSLease
  | l, [] => Except.ok l
  | l, (k, v) :: rest =>
    match decodeLeaseField l k v with
    | Except.ok l' => decodeLeaseFields l' rest
    | Except.error e => Except.error e

/-- `json.Unmarshal` of one array element into a fresh zero `ULSLease`
(`null` leaves the zero value, an object decodes by field). -/
def unmarshalLeaseVal (b : Json) : Except GoError ULSLease :=
  match b with
  | Json.null => Except.ok ULSLease.goZero
  | Json.obj fields => decodeLeaseFields ULSLease.goZero fields
  | _ => Except.error ⟨"json: cannot unmarshal value into Go value of type main.ULSLease"⟩

def unmarshalLeaseList : List Json → Except GoError (List ULSLease)
  | [] => Except.ok []
  | x :: xs =>
    match unmarshalLeaseVal x with
    | Except.error e => Except.error e
    | Except.ok l =>
      match unmarshalLeaseList xs with
      | Except.error e => Except.error e
      | Except.ok ls => Except.ok (l :: ls)

/-- `json.Unmarshal(b, &leases)` where `var leases []ULSLease` is `nil`:
`null` leaves the slice `nil` (`none`), an array decodes elementwise into a
non-`nil` slice, anything else is a type error. -/
def unmarshalLeasesVal (b : Json) : Except GoError (Option (List ULSLease)) :=
  match b with
  | Json.null => Except.ok none
  | Json.arr xs =>
    match unmarshalLeaseList xs with
    | Except.error e => Except.error e
    | Except.ok ls => Except.ok (some ls)
  | _ => Except.error ⟨"json: cannot unmarshal value into Go value of type []main.ULSLease"⟩

/-- `json.Unmarshal(b, &leases)` on raw body bytes: a syntax error if the
bytes are not JSON, otherwise decode the denoted value. -/
def unmarshalLeases (b : JsonBytes) : Except GoError (Option (List ULSLease)) :=
  match b with
  | JsonBytes.notJson e => Except.error e
  | JsonBytes.val j => unmarshalLeasesVal j

/-- A `*prometheus.Desc` as built by `prometheus.NewDesc(fqName, help,
variableLabels, constLabels)`. -/
structure Desc where
  fqName : String
  help : String
  variableLabels : List String
  constLabels : List (String × String)
deriving DecidableEq

/-- `prometheus.BuildFQName`: joins the non-empty name parts with `_`. -/
def BuildFQName (ns subsystem nm : String) : String :=
  if nm = "" then ""
  else if ns ≠ "" ∧ subsystem ≠ "" then ns ++ "_" ++ subsystem ++ "_" ++ nm
  else if ns ≠ "" then ns ++ "_" ++ nm
  else if subsystem ≠ "" then subsystem ++ "_" ++ nm
  else nm

/-- `const namespace = "uls"` (src/main.go line 38). -/
def namespaceULS : String := "uls"

/-- `var up = prometheus.NewDesc(...)` (src/main.go lines 41-45). -/
def up : Desc :=
  ⟨BuildFQName namespaceULS "" "up", "ULS is up and running", [], []⟩

/-- `var lease = prometheus.NewDesc(...)` (src/main.go lines 46-50). -/
def lease : Desc :=
  ⟨BuildFQName namespaceULS "" "leases", "Number of active ULS leases", [], []⟩

inductive ValueType where
  | gauge
  | counter
  | untyped
deriving DecidableEq

/-- A const metric sample as sent on the collect channel by
`prometheus.MustNewConstMetric`.  The values the program emits are exactly 0,
1 and lease counts, whose `float64` images are exact, so they are kept as
naturals. -/
structure Metric where
  desc : Desc
  vtype : ValueType
  value : Nat
deriving DecidableEq

/-- `type ULSExporter struct { BaseURL *url.URL }` (the URL is opaque to every
claim, so it is kept as its string form). -/
structure ULSExporter where
  BaseURL : String
deriving DecidableEq

/-- The environment of one `GetLeases` call: either resolving
`/v1/admin/lease` against the base URL fails, or `http.Get` fails at the
transport level, or a response arrives with a status code, a status line, and
a body-read outcome (`ioutil.ReadAll` error, or the raw bytes). -/
inductive World where
  | urlParseErr (e : GoError)
  | httpGetErr (e : GoError)
  | httpResp (statusCode : Nat) (status : String) (bodyRead : Except GoError JsonBytes)

/-- `func (e *ULSExporter) GetLeases() ([]ULSLease, error)` (src/main.go lines
101-124), with the call's environment passed as `w`.  The pair mirrors Go's
two return values; a `nil` slice is `none`.  The non-200 branch is
`fmt.Errorf("%d %s", res.StatusCode, res.Status)`. -/
def GetLeases (e : ULSExporter) (w : World) : Option (List ULSLease) × Option GoError :=
  match w with
  | World.urlParseErr ge => (none, some ge)
  | World.httpGetErr ge => (none, some ge)
  | World.httpResp code status bodyRead =>
    if code ≠ 200 then (none, some ⟨toString code ++ " " ++ status⟩)
    else
      match bodyRead with
      | Except.error ge => (none, some ge)
      | Except.ok bytes =>
        match unmarshalLeases bytes with
        | Except.error ge => (none, some ge)
        | Except.ok ls => (ls, none)

/-- `func (e *ULSExporter) Collect(ch chan<- prometheus.Metric)` (src/main.go
lines 90-99): the list is the sequence of metrics sent on `ch`, in order (the
`log.Println` on the error path emits no metric). -/
def Collect (e : ULSExporter) (w : World) : List Metric :=
  match GetLeases e w with
  | (_, some _) => [⟨up, ValueType.gauge, 0⟩]
  | (ls, none) => [⟨up, ValueType.gauge, 1⟩, ⟨lease, ValueType.gauge, (ls.getD []).length⟩]

/-- `func (e *ULSExporter) Describe(ch chan<- *prometheus.Desc)` (src/main.go
lines 85-88): sends `up` then `lease`. -/
def Describe (e : ULSExporter) : List Desc := [up, lease]

/-- The process environment, as read by `os.LookupEnv`. -/
def Env : Type := String → Option String

/-- `func envDefault(env string, def string) string` (src/main.go lines
149-155). -/
def envDefault (lookup : Env) (env : String) (d : String) : String :=
  match lookup env with
  | some s => s
  | none => d

/-- The command-line flags given to the process (`none` = flag absent). -/
structure CmdFlags where
  listen : Option String
  path : Option String
  uri : Option String

structure App where
  Listen : String
  Path : String
  URI : String
deriving DecidableEq

/-- The configuration-resolution part of `App.Main` (src/main.go lines
132-136): `flag.StringVar` registers `envDefault(...)` as each flag's default
value and `flag.Parse` overwrites it only when the flag is given on the
command line. -/
def App.resolve (lookup : Env) (fl : CmdFlags) : App :=
  { Listen :=
      match fl.listen with
      | some v => v
      | none => envDefault lookup "ULS_LISTEN" ":9101",
    Path :=
      match fl.path with
      | some v => v
      | none => envDefault lookup "ULS_PATH" "/metrics",
    URI :=
      match fl.uri with
      | some v => v
      | none => envDefault lookup "ULS_URI" "http://localhost:8080" }

theorem timeUTC_unmarshalJSON_eq (t : TimeUTC) (b : Json) :
    TimeUTC.UnmarshalJSON t b = ((TimeUTC.unmarshalJSONBody t b).1, t) := rfl

theorem decodeLeaseField_times (l : ULSLease) (k : String) (v : Json) (l' : ULSLease)
    (h : decodeLeaseField l k v = Except.ok l') :
    l'.CreatedTimeUTC = l.CreatedTimeUTC ∧ l'.LastRenewalTimeUTC = l.LastRenewalTimeUTC := by
  unfold decodeLeaseField at h
  split_ifs at h
  case pos =>
    cases hv : jsonUnmarshalInt l.FloatingLeaseID v with
    | ok n => simp only [hv] at h; injection h with h; subst h; exact ⟨rfl, rfl⟩
    | error e => simp only [hv] at h; exact Except.noConfusion h
  case pos =>
    cases hv : jsonUnmarshalUUID l.Token v with
    | ok u => simp only [hv] at h; injection h with h; subst h; exact ⟨rfl, rfl⟩
    | error e => simp only [hv] at h; exact Except.noConfusion h
  case pos =>
    rw [timeUTC_unmarshalJSON_eq] at h
    cases hv : (TimeUTC.unmarshalJSONBody l.CreatedTimeUTC v).1 with
    | none => simp only [hv] at h; injection h with h; subst h; exact ⟨rfl, rfl⟩
    | some e => simp only [hv] at h; exact Except.noConfusion h
  case pos =>
    rw [timeUTC_unmarshalJSON_eq] at h
    cases hv : (TimeUTC.unmarshalJSONBody l.LastRenewalTimeUTC v).1 with
    | none => simp only [hv] at h; injection h with h; subst h; exact ⟨rfl, rfl⟩
    | some e => simp only [hv] at h; exact Except.noConfusion h
  case pos =>
    cases hv : jsonUnmarshalBool l.IsRevoked v with
    | ok r => simp only [hv] at h; injection h with h; subst h; exact ⟨rfl, rfl⟩
    | error e => simp only [hv] at h; exact Except.noConfusion h
  case pos =>
    cases hv : jsonUnmarshalContext l.ClientEntitlementContext v with
    | ok c => simp only [hv] at h; injection h with h; subst h; exact ⟨rfl, rfl⟩
    | error e => simp only [hv] at h; exact Except.noConfusion h
  case pos =>
    cases hv : jsonUnmarshalStringSlice v with
    | ok g => simp only [hv] at h; injection h with h; subst h; exact ⟨rfl, rfl⟩
    | error e => simp only [hv] at h; exact Except.noConfusion h
  case neg =>
    injection h with h
    subst h
    exact ⟨rfl, rfl⟩

theorem decodeLeaseFields_times : ∀ (fs : List (String × Json)) (l l' : ULSLease),
    decodeLeaseFields l fs = Except.ok l' →
    l'.CreatedTimeUTC = l.CreatedTimeUTC ∧ l'.LastRenewalTimeUTC = l.LastRenewalTimeUTC := by
  intro fs
  induction fs with
  | nil =>
    intro l l' h
    injection h with h
    subst h
    exact ⟨rfl, rfl⟩
  | cons kv rest ih =>
    intro l l' h
    obtain ⟨k, v⟩ := kv
    simp only [decodeLeaseFields] at h
    cases hf : decodeLeaseField l k v with
    | error e => simp only [hf] at h; exact Except.noConfusion h
    | ok lmid =>
      simp only [hf] at h
      have h1 := decodeLeaseField_times l k v lmid hf
      have h2 := ih lmid l' h
      exact ⟨h2.1.trans h1.1, h2.2.trans h1.2⟩

theorem unmarshalLeaseVal_times (j : Json) (l : ULSLease)
    (h : unmarshalLeaseVal j = Except.ok l) :
    l.CreatedTimeUTC = TimeUTC.goZero ∧ l.LastRenewalTimeUTC = TimeUTC.goZero := by
  cases j with
  | null =>
    simp only [unmarshalLeaseVal] at h
    injection h with h
    subst h
    exact ⟨rfl, rfl⟩
  | obj fields =>
    simp only [unmarshalLeaseVal] at h
    exact decodeLeaseFields_times fields ULSLease.goZero l h
  | bool b => simp only [unmarshalLeaseVal] at h; exact Except.noConfusion h
  | num n => simp only [unmarshalLeaseVal] at h; exact Except.noConfusion h
  | str s => simp only [unmarshalLeaseVal] at h; exact Except.noConfusion h
  | arr xs => simp only [unmarshalLeaseVal] at h; exact Except.noConfusion h

/-- C3: When the upstream responds with any status other than 200, GetLeases()
returns an error whose message consists of the numeric status code followed by
the status text of the response (`fmt.Errorf("%d %s", res.StatusCode,
res.Status)`). -/
theorem getLeases_non200_error_message (e : ULSExporter) (c : Nat) (st : String)
    (b : Except GoError JsonBytes) (h : c ≠ 200) :
    GetLeases e (World.httpResp c st b) = (none, some ⟨toString c ++ " " ++ st⟩) := by
  simp only [GetLeases, if_pos h]

theorem getLeases_non200_error_message_witness :
    GetLeases ⟨"http://localhost:8080"⟩
      (World.httpResp 503 "503 Service Unavailable" (Except.ok (JsonBytes.val Json.null))) =
      (none, some ⟨toString 503 ++ " " ++ "503 Service Unavailable"⟩) :=
  getLeases_non200_error_message ⟨"http://localhost:8080"⟩ 503 "503 Service Unavailable"
    (Except.ok (JsonBytes.val Json.null)) (by decide)

/-- C4: GetLeases() is all-or-nothing: under every failure condition it
returns an error together with no lease sequence (`nil` result); it never
returns a partial sequence alongside an error. -/
theorem getLeases_error_implies_nil_result (e : ULSExporter) (w : World)
    (h : (GetLeases e w).2.isSome = true) :
    (GetLeases e w).1 = none := by
  cases w with
  | urlParseErr ge => rfl
  | httpGetErr ge => rfl
  | httpResp c st b =>
    by_cases hc : c = 200
    · subst hc
      simp only [GetLeases, if_neg (by decide : ¬((200 : Nat) ≠ 200))] at h ⊢
      cases b with
      | error ge => rfl
      | ok bytes =>
        cases hu : unmarshalLeases bytes with
        | error ge => simp [hu]
        | ok ls => simp [hu] at h
    · simp only [GetLeases, if_pos hc]

theorem getLeases_error_implies_nil_result_witness :
    (GetLeases ⟨"http://localhost:8080"⟩ (World.httpGetErr ⟨"connection refused"⟩)).1 = none :=
  getLeases_error_implies_nil_result ⟨"http://localhost:8080"⟩
    (World.httpGetErr ⟨"connection refused"⟩) rfl

/-- C5: Describe() always sends exactly the two descriptors, for the gauges
named `uls_up` and `uls_leases` (namespace prefix `uls_`, no labels),
independently of any exporter state or collection outcome. -/
theorem describe_constant_two_descriptors (e : ULSExporter) :
    Describe e = [up, lease] ∧ (Describe e).length = 2 ∧
    up.fqName = "uls_up" ∧ lease.fqName = "uls_leases" ∧
    up.variableLabels = [] ∧ up.constLabels = [] ∧
    lease.variableLabels = [] ∧ lease.constLabels = [] :=
  ⟨rfl, rfl, by decide, by decide, rfl, rfl, rfl, rfl⟩

/-- C6: For every well-formed timestamp string s in the fixed format,
TimeUTC.UnmarshalJSON applied to the JSON encoding of s returns success but
leaves the receiver's time value unchanged (the parsed value is assigned to a
local copy and discarded), so the createdTimeUtc and lastRenewalTimeUtc fields
of a decoded lease are never populated (they stay the zero time). -/
theorem timeutc_unmarshal_discards_parsed_value (t : TimeUTC) (s : String)
    (j : Json) (l : ULSLease)
    (hs : timeParseOk s = true) (hj : unmarshalLeaseVal j = Except.ok l) :
    TimeUTC.UnmarshalJSON t (Json.str s) = (none, t) ∧
    l.CreatedTimeUTC = TimeUTC.goZero ∧ l.LastRenewalTimeUTC = TimeUTC.goZero := by
  refine ⟨?_, unmarshalLeaseVal_times j l hj⟩
  rw [timeUTC_unmarshalJSON_eq]
  unfold TimeUTC.unmarshalJSONBody
  unfold timeParseOk at hs
  cases hp : timeParseULS s with
  | ok pt => simp only [jsonUnmarshalStr, hp]
  | error ge => simp only [hp] at hs; exact Bool.noConfusion hs

theorem timeutc_unmarshal_discards_parsed_value_witness :
    TimeUTC.UnmarshalJSON TimeUTC.goZero (Json.str "2024-05-06T07:08:09.123456Z") =
      (none, TimeUTC.goZero) ∧
    ULSLease.goZero.CreatedTimeUTC = TimeUTC.goZero ∧
    ULSLease.goZero.LastRenewalTimeUTC = TimeUTC.goZero :=
  timeutc_unmarshal_discards_parsed_value TimeUTC.goZero "2024-05-06T07:08:09.123456Z"
    (Json.obj []) ULSLease.goZero (by decide) rfl

/-- C7: For each of the three configuration settings, the effective value is
the CLI flag when given, else the environment variable (ULS_LISTEN, ULS_PATH,
ULS_URI) when present, else the hard-coded default (":9101", "/metrics",
"http://localhost:8080"). -/
theorem config_resolution_precedence (lookup : Env) (fl : CmdFlags) :
    (App.resolve lookup fl).Listen = fl.listen.getD ((lookup "ULS_LISTEN").getD ":9101") ∧
    (App.resolve lookup fl).Path = fl.path.getD ((lookup "ULS_PATH").getD "/metrics") ∧
    (App.resolve lookup fl).URI = fl.uri.getD ((lookup "ULS_URI").getD "http://localhost:8080") := by
  obtain ⟨lo, po, uo⟩ := fl
  refine ⟨?_, ?_, ?_⟩
  · cases lo with
    | some v => rfl
    | none =>
      cases hl : lookup "ULS_LISTEN" with
      | some s => simp [App.resolve, envDefault, hl]
      | none => simp [App.resolve, envDefault, hl]
  · cases po with
    | some v => rfl
    | none =>
      cases hl : lookup "ULS_PATH" with
      | some s => simp [App.resolve, envDefault, hl]
      | none => simp [App.resolve, envDefault, hl]
  · cases uo with
    | some v => rfl
    | none =>
      cases hl : lookup "ULS_URI" with
      | some s => simp [App.resolve, envDefault, hl]
      | none => simp [App.resolve, envDefault, hl]

/-- C8: If the upstream responds 200 with the body being the JSON literal
`null` (rather than an array), GetLeases() succeeds with a nil sequence of
length 0, and Collect() emits up=1 and leases=0, indistinguishable in the
emitted metrics from an empty array. -/
theorem null_body_success_zero_leases (e : ULSExporter) (st : String) :
    GetLeases e (World.httpResp 200 st (Except.ok (JsonBytes.val Json.null))) = (none, none) ∧
    Collect e (World.httpResp 200 st (Except.ok (JsonBytes.val Json.null))) =
      [⟨up, ValueType.gauge, 1⟩, ⟨lease, ValueType.gauge, 0⟩] ∧
    Collect e (World.httpResp 200 st (Except.ok (JsonBytes.val Json.null))) =
      Collect e (World.httpResp 200 st (Except.ok (JsonBytes.val (Json.arr [])))) :=
  ⟨rfl, rfl, rfl⟩

/-- C10: envDefault returns the environment variable's value whenever the
variable is present, including when it is set to the empty string; for
example ULS_LISTEN set to "" makes the effective default listen address "",
not ":9101" — presence, not non-emptiness, decides. -/
theorem envDefault_presence_decides (lookup : Env) (key d : String) :
    envDefault lookup key d = (lookup key).getD d ∧
    envDefault (fun n => if n = "ULS_LISTEN" then some "" else none) "ULS_LISTEN" ":9101" = "" := by
  constructor
  · cases hl : lookup key with
    | some s => simp [envDefault, hl]
    | none => simp [envDefault, hl]
  · decide
